import Mathlib

/-!
Verification of the HIVE P2P knowledge-sharing subsystem of the voyagerAIFramework
repository: a shallow embedding of `SimpleHiveP2P` (peer networking client) and the
HIVE-facing part of `KnowledgeManager` (shared-entity merge, peer-expertise tracking,
trust scoring), together with theorems settling the frozen specification claims.

Modelling conventions:
- JS objects / `Map`s are association lists; `Map.set` keeps an existing key in place
  and appends a new one, `Map.delete` removes the entry.
- JS numbers are embedded as `Nat`/`Int` for counts and as `ℚ` for the trust and
  compatibility scores (all decisive comparisons in the claims are far from any
  floating-point rounding boundary).
- A missing (`undefined`) string field is embedded as `""`, matching the truthiness
  checks the source performs; fields tested with definedness checks are `Option`s.
- The promise/timer machinery of `requestKnowledge` is embedded as an explicit
  state-transition system (`RKRun`) over schedules of response/timer events.
-/

namespace Voyager

/-- Association-list lookup, modelling JS object property access / `Map.get`. -/
def alookup {κ α : Type} [DecidableEq κ] (k : κ) : List (κ × α) → Option α
  | [] => none
  | p :: l => if p.1 = k then some p.2 else alookup k l

/-- Association-list update modelling `Map.set` / JS property assignment: an existing
key keeps its position (value replaced), a new key is appended at the end. -/
def aset {κ α : Type} [DecidableEq κ] (l : List (κ × α)) (k : κ) (v : α) : List (κ × α) :=
  if k ∈ l.map Prod.fst then l.map (fun p => if p.1 = k then (k, v) else p)
  else l ++ [(k, v)]

/-- Association-list removal, modelling `Map.delete`. -/
def aerase {κ α : Type} [DecidableEq κ] (l : List (κ × α)) (k : κ) : List (κ × α) :=
  l.filter (fun p => decide (p.1 ≠ k))

/-- Metadata of an entity: a JS object with string keys (values kept opaque as strings). -/
abbrev Metadata := List (String × String)

/-- Number of fields of a metadata object (`Object.keys(m).length`); a JS object cannot
hold a duplicate key, which `dedup` enforces on degenerate encodings. -/
def objSize (m : Metadata) : Nat := (m.map Prod.fst).dedup.length

/-- An entity as exchanged between peers (`{type, value, metadata}`). -/
structure Entity where
  type : String
  value : String
  metadata : Metadata
deriving DecidableEq

/-- A row of the `knowledge_entities` table. -/
structure StoredEntity where
  id : Nat
  entity_type : String
  entity_value : String
  metadata : Metadata
  created_at : Nat
  updated_at : Nat
deriving DecidableEq

/-- The HIVE-relevant state of `KnowledgeManager` plus its backing entity table. -/
structure KMState where
  store : List StoredEntity
  nextId : Nat
  entityCountByCategory : List (String × Nat)
  peerExpertise : List (String × List (String × Nat))
deriving DecidableEq

/-- `KnowledgeManager.entityTypeToCategory`: the fixed type→category table with
fall-through to the type itself. -/
def entityTypeToCategory (entityType : String) : String :=
  let typeToCategory : List (String × String) :=
    [("token", "tokens"), ("wallet", "wallets"), ("project", "projects"),
     ("exchange", "exchanges"), ("market_event", "market_events"), ("concept", "concepts")]
  (alookup entityType typeToCategory).getD entityType

/-- `KnowledgeManager.getEntityByTypeAndValue`: first row matching the (type, value) key. -/
def getEntityByTypeAndValue (km : KMState) (t v : String) : Option StoredEntity :=
  km.store.find? (fun e => decide (e.entity_type = t ∧ e.entity_value = v))

/-- `KnowledgeManager.getEntityById`. -/
def getEntityById (km : KMState) (i : Nat) : Option StoredEntity :=
  km.store.find? (fun e => decide (e.id = i))

/-- `database.storeEntity`: SQL upsert with `ON CONFLICT(entity_type, entity_value)` —
insert a fresh row, or overwrite the conflicting row's metadata and `updated_at`;
returns the row id. -/
def storeEntity (km : KMState) (t v : String) (m : Metadata) (now : Nat) : KMState × Nat :=
  match getEntityByTypeAndValue km t v with
  | some ex =>
      let newStore := km.store.map
        (fun e => if e.id = ex.id then { e with metadata := m, updated_at := now } else e)
      ({ km with store := newStore }, ex.id)
  | none =>
      let newStore := km.store ++ [⟨km.nextId, t, v, m, now, now⟩]
      ({ km with store := newStore, nextId := km.nextId + 1 }, km.nextId)

/-- `KnowledgeManager.updateEntityMetadata`: overwrite metadata and `updated_at` by row id. -/
def updateEntityMetadata (km : KMState) (i : Nat) (m : Metadata) (now : Nat) : KMState :=
  let newStore := km.store.map
    (fun e => if e.id = i then { e with metadata := m, updated_at := now } else e)
  { km with store := newStore }

/-- `KnowledgeManager.trackPeerEntity`: bump the per-peer, per-category contribution
counter for the entity's category, capping the stored value at 20. -/
def trackPeerEntity (km : KMState) (entityId : Nat) (peerId : String) : KMState :=
  match getEntityById km entityId with
  | none => km
  | some entity =>
      let category := entityTypeToCategory entity.entity_type
      let expertise := (alookup peerId km.peerExpertise).getD []
      let current := (alookup category expertise).getD 0
      let capped := min 20 (current + 1)
      { km with peerExpertise := aset km.peerExpertise peerId (aset expertise category capped) }

/-- `KnowledgeManager.processSharedEntity`: insert an unseen (type, value) key as-is;
for an existing key replace the stored metadata exactly when the incoming one has
strictly more fields; track the contributing peer on insert/update. -/
def processSharedEntity (km : KMState) (e : Entity) (sourcePeerId : String) (now : Nat) :
    KMState × Bool :=
  match getEntityByTypeAndValue km e.type e.value with
  | none =>
      let res := storeEntity km e.type e.value e.metadata now
      let category := entityTypeToCategory e.type
      let newCounts := aset res.1.entityCountByCategory category
        (((alookup category res.1.entityCountByCategory).getD 0) + 1)
      let km2 := { res.1 with entityCountByCategory := newCounts }
      (trackPeerEntity km2 res.2 sourcePeerId, true)
  | some existingEntity =>
      let ourSize := objSize existingEntity.metadata
      let theirSize := objSize e.metadata
      if theirSize > ourSize then
        let km1 := updateEntityMetadata km existingEntity.id e.metadata now
        (trackPeerEntity km1 existingEntity.id sourcePeerId, true)
      else (km, false)

/-- `Math.min` on rationals (computable conditional form). -/
def jsMin (a b : ℚ) : ℚ := if a ≤ b then a else b

/-- `Math.max` on rationals (computable conditional form). -/
def jsMax (a b : ℚ) : ℚ := if a ≤ b then b else a

/-- `KnowledgeManager.calculateCategoryTrust`, embedded over `ℚ` exactly as written in
the source: `selfTrust = min(0.9, 0.5 + count/100)`, `peerTrust = 0.5 + expertise/20`
(the source applies no `min(0.5, ·)` cap here), result `max(selfTrust, peerTrust)`. -/
def calculateCategoryTrust (km : KMState) (peerId category : String) : ℚ :=
  let entriesInCategory : ℚ := ((alookup category km.entityCountByCategory).getD 0 : Nat)
  let selfTrust : ℚ := jsMin (0.9 : ℚ) ((0.5 : ℚ) + entriesInCategory / 100)
  let peerExpertise : ℚ := ((alookup category ((alookup peerId km.peerExpertise).getD [])).getD 0 : Nat)
  let peerTrust : ℚ := (0.5 : ℚ) + peerExpertise / 20
  jsMax selfTrust peerTrust

/-- The share format produced by `getKnowledgeByCategories`. -/
structure ShareEntity where
  id : Nat
  type : String
  value : String
  metadata : Metadata
  created_at : Nat
  updated_at : Nat
deriving DecidableEq

/-- Substring test, modelling SQL `LIKE '%pat%'`. -/
def containsSubstr (s pat : String) : Bool :=
  (List.range (s.length + 1)).any (fun i => pat.isPrefixOf (s.drop i))

/-- JSON serialisation of a flat metadata object, as stored in the `metadata` column
(the SQL `LIKE` in `getKnowledgeByCategories` matches against this string). -/
def jsonOfMetadata (m : Metadata) : String :=
  "\x7b" ++ String.intercalate ","
    (m.map (fun p => "\"" ++ p.1 ++ "\":\"" ++ p.2 ++ "\"")) ++ "\x7d"

/-- Insertion step for `ORDER BY updated_at DESC`. -/
def insertByUpdated (e : StoredEntity) : List StoredEntity → List StoredEntity
  | [] => [e]
  | x :: xs => if x.updated_at < e.updated_at then e :: x :: xs else x :: insertByUpdated e xs

/-- Sort rows by `updated_at` descending (SQL leaves tie order unspecified). -/
def sortByUpdatedDesc (l : List StoredEntity) : List StoredEntity :=
  l.foldr insertByUpdated []

/-- `KnowledgeManager.getKnowledgeByCategories`: map categories to entity types, keep
only known types, select matching rows (optionally filtered by a `LIKE` query on the
value or serialised metadata), newest first, limited to 100, in share format. -/
def getKnowledgeByCategories (km : KMState) (categories : List String) (query : String) :
    List ShareEntity :=
  let categoryToType : List (String × String) :=
    [("tokens", "token"), ("wallets", "wallet"), ("projects", "project"),
     ("exchanges", "exchange"), ("market_events", "market_event"), ("concepts", "concept")]
  let allTypes : List String :=
    ["token", "wallet", "project", "exchange", "market_event", "concept"]
  let entityTypes :=
    (categories.map (fun c => (alookup c categoryToType).getD c)).filter
      (fun t => decide (t ∈ allTypes))
  if entityTypes.isEmpty then []
  else
    let useQuery := !(query.trim = "")
    let rows := km.store.filter (fun e =>
      decide (e.entity_type ∈ entityTypes) &&
      (!useQuery || containsSubstr e.entity_value query ||
        containsSubstr (jsonOfMetadata e.metadata) query))
    ((sortByUpdatedDesc rows).take 100).map (fun e =>
      ⟨e.id, e.entity_type, e.entity_value, e.metadata, e.created_at, e.updated_at⟩)

/-- JS strict equality `===` between a boolean and a string: always false (mismatched
types never compare equal under `===`). `env.js` already coerces `HIVE_AUTO_DISCOVERY`
and `HIVE_PREFER_RANDOM` to booleans, and `simpleHiveP2P` compares those booleans to
the string `"true"` again, so those comparisons are constantly false in the source. -/
def strictEqBoolString (_ : Bool) (_ : String) : Bool := false

/-- The expertise profile a node builds at startup and sends in handshakes. -/
structure Expertise where
  categories : List (String × Nat)
  clientId : String
  port : Nat
  shareCategories : List String
deriving DecidableEq

/-- An incoming peer-protocol message: a JS object with a `type` tag and whichever
fields the sender included; absent string fields are embedded as `""`, fields the
handlers test for definedness as `Option`s. The query result payload is opaque here. -/
structure Msg where
  type : String
  clientId : String := ""
  expertiseProfile : Option Expertise := none
  requestId : String := ""
  entities : Option (List ShareEntity) := none
  error : Option String := none
  queryId : String := ""
  content : String := ""
  query : String := ""
  categories : Option (List String) := none
  result : Option String := none
  entity : Option Entity := none
  sourceId : String := ""
deriving DecidableEq

/-- Messages a peer sends back over a socket. -/
inductive OutMsg
  | handshakeAck (clientId : String) (expertiseProfile : Expertise)
  | knowledgeResponse (requestId : String) (entities : List ShareEntity) (error : Option String)
  | queryResponse (queryId : String) (result : Option String) (error : Option String)
deriving DecidableEq

/-- Observable side effects of handling one message: sends on sockets (identified by
a numeric handle), timer cancellations, and invocations of the resolver stored in a
`pendingQueries` entry. -/
inductive Effect
  | send (ws : Nat) (msg : OutMsg)
  | clearTimer (timer : Nat)
  | resolveKnowledge (requestId : String) (entities : List ShareEntity)
  | resolveQuery (queryId : String) (result : Option String)
deriving DecidableEq

/-- The state of one `SimpleHiveP2P` node. `envPreferRandom`/`envAutoDiscovery` hold
the (already boolean) values of `ENV.HIVE_PREFER_RANDOM`/`ENV.HIVE_AUTO_DISCOVERY`;
`now` is the current clock value used for `Date.now()` timestamps. -/
structure NodeState where
  peers : List (String × Nat)
  wsPeerId : List (Nat × String)
  clientId : String
  timeout : Nat
  shareCategories : List String
  pendingQueries : List (String × Nat)
  peerCategories : List (String × List (String × Nat))
  expertiseProfile : Expertise
  envPreferRandom : Bool
  envAutoDiscovery : Bool
  discoveryConnected : Bool
  inMatchmakingQueue : Bool
  now : Nat
  km : KMState
deriving DecidableEq

/-- The type→category table of `SimpleHiveP2P.isEntityTypeAllowed` (duplicated in the
source from `KnowledgeManager.entityTypeToCategory`). -/
def p2pTypeToCategory (entityType : String) : String :=
  let typeToCategory : List (String × String) :=
    [("token", "tokens"), ("wallet", "wallets"), ("project", "projects"),
     ("exchange", "exchanges"), ("market_event", "market_events"), ("concept", "concepts")]
  (alookup entityType typeToCategory).getD entityType

/-- `SimpleHiveP2P.isEntityTypeAllowed`: whether the entity type's mapped category is
in the local share list. -/
def isEntityTypeAllowed (shareCategories : List String) (entityType : String) : Bool :=
  decide (p2pTypeToCategory entityType ∈ shareCategories)

/-- `SimpleHiveP2P.handleKnowledgeRequest`: answer with entities for the allowed
subset of the requested categories; an empty intersection is answered with an explicit
empty-entities response. A missing `categories` field makes `categories.filter` throw,
which the catch block answers with an error payload. -/
def handleKnowledgeRequest (st : NodeState) (data : Msg) (ws : Nat) :
    NodeState × List Effect :=
  match data.categories with
  | none =>
      (st, [.send ws (.knowledgeResponse data.requestId [] (some "Failed to retrieve knowledge"))])
  | some categories =>
      let allowedCategories := categories.filter (fun cat => decide (cat ∈ st.shareCategories))
      if allowedCategories.isEmpty then
        (st, [.send ws (.knowledgeResponse data.requestId [] none)])
      else
        let knowledge := getKnowledgeByCategories st.km allowedCategories data.query
        (st, [.send ws (.knowledgeResponse data.requestId knowledge none)])

/-- `SimpleHiveP2P.handleKnowledgeResponse`: correlate by `requestId`; an unknown id
is discarded, a known one has its timer cleared, its entry removed and its stored
resolver invoked with the received entities. -/
def handleKnowledgeResponse (st : NodeState) (data : Msg) : NodeState × List Effect :=
  match alookup data.requestId st.pendingQueries with
  | none => (st, [])
  | some timer =>
      ({ st with pendingQueries := aerase st.pendingQueries data.requestId },
       [.clearTimer timer, .resolveKnowledge data.requestId (data.entities.getD [])])

/-- `SimpleHiveP2P.handleQuery`; `pq` is the external query-processing collaborator
(`knowledgeManager.processQuery`), out of this subsystem's scope per the spec. -/
def handleQuery (pq : String → List String → Option String) (st : NodeState) (data : Msg)
    (ws : Nat) : NodeState × List Effect :=
  match data.categories with
  | none =>
      (st, [.send ws (.queryResponse data.queryId none (some "Failed to process query"))])
  | some categories =>
      let allowedCategories := categories.filter (fun cat => decide (cat ∈ st.shareCategories))
      if allowedCategories.isEmpty then
        (st, [.send ws (.queryResponse data.queryId none (some "No shared categories"))])
      else
        (st, [.send ws (.queryResponse data.queryId (pq data.content allowedCategories) none)])

/-- `SimpleHiveP2P.handleQueryResponse`. -/
def handleQueryResponse (st : NodeState) (data : Msg) : NodeState × List Effect :=
  match alookup data.queryId st.pendingQueries with
  | none => (st, [])
  | some timer =>
      let payload := match data.error with
        | some _ => Effect.resolveQuery data.queryId none
        | none => Effect.resolveQuery data.queryId data.result
      ({ st with pendingQueries := aerase st.pendingQueries data.queryId },
       [.clearTimer timer, payload])

/-- `SimpleHiveP2P.handleNewEntity`: drop invalid entities, drop entities whose mapped
category is not locally shared, otherwise hand to `processSharedEntity`. -/
def handleNewEntity (st : NodeState) (data : Msg) : NodeState × List Effect :=
  match data.entity with
  | none => (st, [])
  | some entity =>
      if entity.type = "" ∨ entity.value = "" then (st, [])
      else if isEntityTypeAllowed st.shareCategories entity.type then
        ({ st with km := (processSharedEntity st.km entity data.sourceId st.now).1 }, [])
      else (st, [])

/-- `SimpleHiveP2P.handleMessage`: the `switch` over the message `type`; a tag not in
the seven handled cases falls through with no action. -/
def handleMessage (pq : String → List String → Option String) (st : NodeState)
    (data : Msg) (ws : Nat) : NodeState × List Effect :=
  if data.type = "handshake" then
    let newPeerCategories := match data.expertiseProfile with
      | some p => aset st.peerCategories data.clientId p.categories
      | none => st.peerCategories
    let st1 := { st with
      peers := aset st.peers data.clientId ws,
      wsPeerId := aset st.wsPeerId ws data.clientId,
      peerCategories := newPeerCategories }
    (st1, [.send ws (.handshakeAck st.clientId st.expertiseProfile)])
  else if data.type = "handshake-ack" then
    let newPeerCategories := match data.expertiseProfile with
      | some p => aset st.peerCategories data.clientId p.categories
      | none => st.peerCategories
    ({ st with peerCategories := newPeerCategories }, [])
  else if data.type = "knowledge-request" then handleKnowledgeRequest st data ws
  else if data.type = "knowledge-response" then handleKnowledgeResponse st data
  else if data.type = "query" then handleQuery pq st data ws
  else if data.type = "query-response" then handleQueryResponse st data
  else if data.type = "new-entity" then handleNewEntity st data
  else (st, [])

/-- Observed per-peer category count (`this.peerCategories[peerId][category] || 0`). -/
def peerCategoryCount (st : NodeState) (peerId category : String) : Nat :=
  (alookup category ((alookup peerId st.peerCategories).getD [])).getD 0

/-- Loop body of `findBestPeerForCategory`: keep the first peer whose count strictly
exceeds the best score so far. -/
def bestStep (st : NodeState) (category : String) (acc : Option String × Int)
    (p : String × Nat) : Option String × Int :=
  let score : Int := (peerCategoryCount st p.1 category : Int)
  if score > acc.2 then (some p.1, score) else acc

/-- `SimpleHiveP2P.findBestPeerForCategory`: scan the peers map keeping the first peer
whose count strictly exceeds the best so far, starting from a best score of `-1`. -/
def findBestPeerForCategory (st : NodeState) (category : String) : Option String :=
  if st.peers.isEmpty then none
  else (st.peers.foldl (bestStep st category) ((none : Option String), (-1 : Int))).1

/-- `SimpleHiveP2P.getRandomPeer`; `randomIndex` stands for the value of
`Math.floor(Math.random() * peerIds.length)`. -/
def getRandomPeer (st : NodeState) (randomIndex : Nat) : Option String :=
  let peerIds := st.peers.map Prod.fst
  if peerIds.length = 0 then none else peerIds.get? randomIndex

/-- One iteration of the per-category target-selection loop of `requestKnowledge` /
`sendCollaborativeQuery`, `if (bestPeerId && this.peers.has(bestPeerId))`: add the
category's best peer to the target map only when the scan produced one (the `none`
arm models `null`), its peerId is truthy — a falsy best id, i.e. the empty string
standing for a peer registered with a missing or empty clientId, is skipped — and it
is still in the peers map. -/
def targetStep (st : NodeState) (targetPeers : List (String × Nat)) (category : String) :
    List (String × Nat) :=
  match findBestPeerForCategory st category with
  | some bestPeerId =>
      if bestPeerId ≠ "" then
        match alookup bestPeerId st.peers with
        | some ws => aset targetPeers bestPeerId ws
        | none => targetPeers
      else targetPeers
  | none => targetPeers

/-- The whole target-selection loop over the allowed categories. -/
def bestTargets (st : NodeState) (allowedCategories : List String) : List (String × Nat) :=
  allowedCategories.foldl (targetStep st) []

/-- The fallback-aware target selection of `requestKnowledge`: the per-category best
peers, or — when none were found — one random peer if `ENV.HIVE_PREFER_RANDOM === 'true'`
(a boolean-vs-string comparison, hence constantly false) and otherwise all peers. -/
def selectTargetPeers (st : NodeState) (allowedCategories : List String)
    (randomIndex : Nat) : List (String × Nat) :=
  let targets := bestTargets st allowedCategories
  if targets.isEmpty then
    if strictEqBoolString st.envPreferRandom "true" then
      match getRandomPeer st randomIndex with
      | some randomPeerId =>
          match alookup randomPeerId st.peers with
          | some ws => [(randomPeerId, ws)]
          | none => []
      | none => []
    else st.peers
  else targets

/-- Outcome of the synchronous decision prefix of `requestKnowledge`: an immediate
return value (no knowledge-request sent), the auto-discovery matchmaking wait, or the
dispatch of `knowledge-request{requestId, categories, query}` to the target peers. -/
inductive RKOutcome
  | earlyReturn (result : List ShareEntity)
  | autoDiscoveryWait
  | sendRequests (requestId : String) (categories : List String) (query : String)
      (targets : List (String × Nat))
deriving DecidableEq

/-- The synchronous prefix of `SimpleHiveP2P.requestKnowledge`: empty peer set handling
(the matchmaking branch is guarded by `this.useAutoDiscovery`, set from a constantly
false boolean-vs-string comparison), category filtering against `shareCategories`, and
target selection. `requestId` stands for the generated correlation id. -/
def requestKnowledgeSetup (st : NodeState) (requestId : String) (categories : List String)
    (query : String) (randomIndex : Nat) : RKOutcome :=
  if st.peers.isEmpty then
    if strictEqBoolString st.envAutoDiscovery "true" && st.discoveryConnected then
      .autoDiscoveryWait
    else .earlyReturn []
  else
    let allowedCategories := categories.filter (fun cat => decide (cat ∈ st.shareCategories))
    if allowedCategories.isEmpty then .earlyReturn []
    else .sendRequests requestId allowedCategories query
      (selectTargetPeers st allowedCategories randomIndex)

/-- Connection info carried by discovery-server suggestions. A JS truthiness check
guards both fields, so validity means a nonempty host and a nonzero port. -/
structure ConnectInfo where
  host : String
  port : Nat
deriving DecidableEq

/-- One entry of a `peer_suggestions` list. -/
structure PeerSuggestion where
  connectInfo : Option ConnectInfo
deriving DecidableEq

/-- An incoming discovery-server message. `compatibilityScore` is an `Option` because
`peer-suggestion` messages may omit it (and `undefined >= 0.7` is false in JS). -/
structure DMsg where
  type : String
  peerId : String := ""
  connectInfo : Option ConnectInfo := none
  compatibilityScore : Option ℚ := none
  peers : List PeerSuggestion := []
  status : String := ""
  inQueue : Bool := false
deriving DecidableEq

/-- JS `>=` between a possibly-undefined number and a constant: false when undefined. -/
def jsGE (x : Option ℚ) (c : ℚ) : Bool :=
  match x with
  | some v => decide (v ≥ c)
  | none => false

/-- Actions a node takes in response to discovery-server messages. -/
inductive DAction
  | registerExpertise (clientId : String) (categories : List (String × Nat))
  | joinMatchmaking (clientId : String)
  | dial (url : String)
deriving DecidableEq

/-- The `ws://host:port` URL built for a suggested peer. -/
def peerUrl (ci : ConnectInfo) : String :=
  "ws://" ++ ci.host ++ ":" ++ toString ci.port

/-- `SimpleHiveP2P.joinMatchmakingQueue`: no-op unless connected to the discovery
server and not already queued. -/
def joinMatchmakingQueue (st : NodeState) : NodeState × List DAction :=
  if ¬st.discoveryConnected ∨ st.inMatchmakingQueue then (st, [])
  else ({ st with inMatchmakingQueue := true }, [.joinMatchmaking st.clientId])

/-- `SimpleHiveP2P.handleDiscoveryMessage`: the `switch` over discovery-server message
types. On `peer-suggestion` the node dials the suggested peer only when the
connect info is valid and `compatibilityScore >= 0.7`; lower scores are only logged. -/
def handleDiscoveryMessage (st : NodeState) (data : DMsg) : NodeState × List DAction :=
  if data.type = "welcome" then
    let base : List DAction := [.registerExpertise st.clientId st.expertiseProfile.categories]
    if strictEqBoolString st.envAutoDiscovery "true" then
      let joined := joinMatchmakingQueue st
      (joined.1, base ++ joined.2)
    else (st, base)
  else if data.type = "peer-match" then
    match data.connectInfo with
    | some ci => if ci.host ≠ "" ∧ ci.port ≠ 0 then (st, [.dial (peerUrl ci)]) else (st, [])
    | none => (st, [])
  else if data.type = "matchmaking_status" then
    ({ st with inMatchmakingQueue := data.inQueue }, [])
  else if data.type = "peer_suggestions" then
    (st, data.peers.filterMap (fun p =>
      match p.connectInfo with
      | some ci => if ci.host ≠ "" ∧ ci.port ≠ 0 then some (.dial (peerUrl ci)) else none
      | none => none))
  else if data.type = "peer-suggestion" then
    match data.connectInfo with
    | some ci =>
        if ci.host ≠ "" ∧ ci.port ≠ 0 then
          if jsGE data.compatibilityScore (0.7 : ℚ) then (st, [.dial (peerUrl ci)])
          else (st, [])
        else (st, [])
    | none => (st, [])
  else (st, [])

/-- Per-target-peer promise state inside one `requestKnowledge` call: the socket's
openness at send time, the per-peer timeout timer, the outer promise (the one
`Promise.all` awaits) and the inner `responsePromise` (settled by the stored resolver
but returned only from the outer executor, where its value is discarded). -/
structure PeerSlot where
  isOpen : Bool
  timerArmed : Bool
  timerCleared : Bool
  timerFired : Bool
  outer : Option (List ShareEntity)
  inner : Option (List ShareEntity)
deriving DecidableEq

/-- State of one `requestKnowledge` dispatch for a fixed `requestId`: the slots of the
target peers in iteration order, the single `pendingQueries` entry for this id (the
index of the last slot that registered it — each registration overwrites the previous
one), the `responsesReceived` counter, and a ghost count of consuming resolutions
(entry removed and a resolver called, by response or by timeout). -/
structure RKRun where
  slots : List PeerSlot
  pending : Option Nat
  responsesReceived : Nat
  resolutions : Nat
deriving DecidableEq

/-- One iteration of the synchronous per-peer setup loop of `requestKnowledge`: a
non-open socket resolves its outer promise with `[]` immediately; an open one arms a
timer, overwrites the `pendingQueries` entry with its own registration, and sends
the request. -/
def rkSetupStep (run : RKRun) (isOpen : Bool) : RKRun :=
  if isOpen then
    { run with
        slots := run.slots ++ [⟨true, true, false, false, none, none⟩],
        pending := some run.slots.length }
  else
    { run with slots := run.slots ++ [⟨false, false, false, false, some [], none⟩] }

/-- The whole setup loop, over the target peers' openness flags in iteration order. -/
def rkSetup (openFlags : List Bool) : RKRun :=
  openFlags.foldl rkSetupStep ⟨[], none, 0, 0⟩

/-- Events that can reach a pending `requestKnowledge` call: a matching
`knowledge-response` arriving, or one of the per-peer timeout timers firing. -/
inductive RKEvent
  | response (entities : List ShareEntity)
  | timerFire (i : Nat)
deriving DecidableEq

/-- Apply a function to slot `i`. -/
def modifySlot (run : RKRun) (i : Nat) (f : PeerSlot → PeerSlot) : RKRun :=
  { run with slots := run.slots.mapIdx (fun j s => if j = i then f s else s) }

/-- One event step. A response for the request's id is discarded when no entry is
pending; otherwise it clears the timer stored in the entry (the last registrant's),
removes the entry and invokes the stored resolver, which settles that slot's inner
promise. A timer that is armed, uncleared and unfired fires once; it resolves its own
slot's outer promise with `[]` only when the entry is still pending, removing it. -/
def rkStep (run : RKRun) : RKEvent → RKRun
  | .response entities =>
      match run.pending with
      | none => run
      | some j =>
          let run1 := modifySlot run j (fun s => { s with timerCleared := true, inner := some entities })
          { run1 with
              pending := none,
              responsesReceived := run1.responsesReceived + 1,
              resolutions := run1.resolutions + 1 }
  | .timerFire i =>
      match run.slots[i]? with
      | none => run
      | some s =>
          if s.timerArmed ∧ ¬s.timerCleared ∧ ¬s.timerFired then
            let run1 := modifySlot run i (fun s => { s with timerFired := true })
            match run1.pending with
            | some _ =>
                let run2 := modifySlot run1 i (fun s => { s with outer := some [] })
                { run2 with pending := none, resolutions := run2.resolutions + 1 }
            | none => run1
          else run

/-- Run a schedule of events against the state left by the setup loop. -/
def rkRun (openFlags : List Bool) (events : List RKEvent) : RKRun :=
  events.foldl rkStep (rkSetup openFlags)

/-- Whether `Promise.all(peerPromises)` has settled, i.e. whether `requestKnowledge`
has returned: every outer promise must be resolved. -/
def rkSettled (run : RKRun) : Bool :=
  run.slots.all (fun s => s.outer.isSome)

/-- The value `requestKnowledge` returns once settled: the concatenation of the outer
promises' values. -/
def rkResult (run : RKRun) : List ShareEntity :=
  (run.slots.map (fun s => s.outer.getD [])).flatten

/-- Fold `handleMessage` over a sequence of incoming (message, socket) pairs,
keeping the node state. -/
def applyMessages (pq : String → List String → Option String) (st : NodeState)
    (msgs : List (Msg × Nat)) : NodeState :=
  msgs.foldl (fun s m => (handleMessage pq s m.1 m.2).1) st

/-- A query processor that always declines, for concrete instantiations. -/
def nullQueryProcessor : String → List String → Option String := fun _ _ => none

/-- A concrete expertise profile. -/
def exampleProfile : Expertise := ⟨[("tokens", 5)], "node-a", 3000, ["tokens"]⟩

/-- A concrete empty knowledge store. -/
def exampleKM : KMState := ⟨[], 1, [], []⟩

/-- A concrete node with two connected peers, sharing the default category list. -/
def exampleState : NodeState :=
  ⟨[("peer1", 1), ("peer2", 2)], [(1, "peer1"), (2, "peer2")], "node-a", 5000,
   ["market_events", "tokens", "concepts"], [],
   [("peer1", [("tokens", 3)]), ("peer2", [("tokens", 7)])],
   exampleProfile, false, false, false, false, 0, exampleKM⟩

/-- A node whose best-scoring connected peer for `tokens` is registered under the
falsy peerId `""` (the embedding of a handshake with a missing or empty clientId). -/
def falsyPeerState : NodeState :=
  { exampleState with
      peers := [("", 1), ("x", 2)],
      peerCategories := [("", [("tokens", 5)]), ("x", [("tokens", 0)])] }

/-- A message whose tag is none of the seven handled peer-protocol types. -/
def unknownMsg : Msg := { type := "gossip" }

/-- A handshake from `peer1`. -/
def handshakeMsg : Msg :=
  { type := "handshake", clientId := "peer1", expertiseProfile := some exampleProfile }

/-- A `new-entity` message whose mapped category `wallets` is not locally shared. -/
def walletEntityMsg : Msg :=
  { type := "new-entity", entity := some ⟨"wallet", "W1", [("a", "1")]⟩, sourceId := "peer1" }

/-- A `knowledge-request` for a category the responder does not share. -/
def walletRequestMsg : Msg :=
  { type := "knowledge-request", requestId := "req9", categories := some ["wallets"] }

/-- A `peer-suggestion` with valid connect info and a compatibility score of 4/5. -/
def suggestionHigh : DMsg :=
  { type := "peer-suggestion", connectInfo := some ⟨"h", 81⟩,
    compatibilityScore := some ((4 : ℚ)/5) }

/-- Starting knowledge state for the trust-score run: one stored token entity
(id 1) that `trackPeerEntity` will be credited for. -/
def trustKM0 : KMState := ⟨[⟨1, "token", "X", [], 0, 0⟩], 2, [], []⟩

/-- Iterate `trackPeerEntity` for entity 1 and peer `peerA`, modelling the peer
repeatedly contributing accepted token entities. -/
def iterTrack : Nat → KMState → KMState
  | 0, km => km
  | n + 1, km => iterTrack n (trackPeerEntity km 1 "peerA")

/-- The knowledge state after `peerA` has contributed 11 accepted token entities. -/
def trustKM11 : KMState := iterTrack 11 trustKM0

/-- A concrete entity a peer could answer with. -/
def sampleEntity : ShareEntity := ⟨1, "token", "SOL", [("price", "100")], 0, 0⟩

/-- The run of the spec's scenario: `requestKnowledge` dispatched to two open target
peers, one `knowledge-response` with the matching id arrives before the timeout,
and the one surviving timer (the first peer's; the response cleared the second's,
the last registered) fires at the timeout. -/
def hangRun : RKRun :=
  rkRun [true, true] [.response [sampleEntity], .timerFire 0]

/-- Safety invariant of a `requestKnowledge` run: at most one consuming resolution of
the request's `pendingQueries` entry has happened, and none while the entry is still
in the map. -/
def rkInv (r : RKRun) : Prop :=
  r.resolutions ≤ 1 ∧ (r.pending.isSome → r.resolutions = 0)

theorem foldl_rkSetupStep_resolutions (l : List Bool) (r : RKRun) :
    (l.foldl rkSetupStep r).resolutions = r.resolutions := by
  induction l generalizing r with
  | nil => rfl
  | cons b l ih =>
      rw [List.foldl_cons, ih]
      cases b <;> rfl

theorem rkSetup_inv (openFlags : List Bool) : rkInv (rkSetup openFlags) := by
  have h : (rkSetup openFlags).resolutions = 0 := foldl_rkSetupStep_resolutions openFlags _
  exact ⟨by omega, fun _ => h⟩

theorem modifySlot_pending (r : RKRun) (i : Nat) (f : PeerSlot → PeerSlot) :
    (modifySlot r i f).pending = r.pending := rfl

theorem modifySlot_resolutions (r : RKRun) (i : Nat) (f : PeerSlot → PeerSlot) :
    (modifySlot r i f).resolutions = r.resolutions := rfl

theorem rkStep_inv (r : RKRun) (e : RKEvent) (h : rkInv r) : rkInv (rkStep r e) := by
  cases e with
  | response entities =>
      cases hp : r.pending with
      | none => simpa [rkStep, hp] using h
      | some j =>
          have h0 : r.resolutions = 0 := h.2 (by simp [hp])
          simp [rkStep, hp, rkInv, modifySlot, h0]
  | timerFire i =>
      cases hs : r.slots[i]? with
      | none => simpa [rkStep, hs] using h
      | some s =>
          by_cases hc : s.timerArmed ∧ ¬s.timerCleared ∧ ¬s.timerFired
          · cases hp : r.pending with
            | some j =>
                have h0 : r.resolutions = 0 := h.2 (by simp [hp])
                simp [rkStep, hs, hc.1, hc.2.1, hc.2.2, hp, rkInv, modifySlot, h0]
            | none =>
                have h1 := h.1
                simp [rkStep, hs, hc.1, hc.2.1, hc.2.2, hp, rkInv, modifySlot, h1]
          · simp only [rkStep, hs]
            rw [if_neg hc]
            exact h

theorem foldl_rkStep_inv (events : List RKEvent) (r : RKRun) (h : rkInv r) :
    rkInv (events.foldl rkStep r) := by
  induction events generalizing r with
  | nil => exact h
  | cons e es ih => exact ih _ (rkStep_inv r e h)

/-- C2: for every requestId placed in `pendingQueries`, over every openness
configuration of the target peers of the issuing call and every schedule of matching
responses and timeout-timer firings, the entry is consumed — removed and a stored
resolver invoked, by a matching response or by a timer — at most once, never by both;
this covers one `requestKnowledge` call registering the same requestId for several
target peers, since each registration overwrites the previous one. -/
theorem pendingQueries_at_most_one_resolution (openFlags : List Bool)
    (events : List RKEvent) : (rkRun openFlags events).resolutions ≤ 1 :=
  (foldl_rkStep_inv events (rkSetup openFlags) (rkSetup_inv openFlags)).1

/-- C1: counterexample run for the claim that `requestKnowledge` resolves with the
responding peers' entities. With two open target peers and exactly one matching
`knowledge-response` arriving before the timeout, both outer promises (the ones
`Promise.all` awaits) stay unresolved even after the surviving timer fires — the
response only settles the discarded inner promise — so the call never returns,
instead of returning that peer's entities. -/
theorem requestKnowledge_response_never_reaches_caller :
    rkSettled hangRun = false ∧
    hangRun.slots.map PeerSlot.outer = [none, none] ∧
    hangRun.slots.map PeerSlot.inner = [none, some [sampleEntity]] ∧
    hangRun.responsesReceived = 1 := by decide

/-- C3: counterexample to the claimed trust formula and [0,1] bound. After `peerA`
has contributed 11 accepted token entities (a reachable `peerExpertise` value, built
here by iterating `trackPeerEntity`), `calculateCategoryTrust` returns
`0.5 + 11/20 = 21/20 > 1`: the source omits the `min(0.5, ·)` cap on the peer-trust
bonus that the claim (and the source's own comments) state. -/
theorem calculateCategoryTrust_exceeds_one :
    alookup "tokens" ((alookup "peerA" trustKM11.peerExpertise).getD []) = some 11 ∧
    calculateCategoryTrust trustKM11 "peerA" "tokens" = 21 / 20 ∧
    1 < calculateCategoryTrust trustKM11 "peerA" "tokens" := by
  have h2 : alookup "tokens" ((alookup "peerA" trustKM11.peerExpertise).getD []) = some 11 := by
    decide
  have h1 : alookup "tokens" trustKM11.entityCountByCategory = none := by decide
  have hval : calculateCategoryTrust trustKM11 "peerA" "tokens" = 21 / 20 := by
    simp only [calculateCategoryTrust, h1, h2, Option.getD_none, Option.getD_some]
    norm_num [jsMin, jsMax]
  exact ⟨h2, hval, by rw [hval]; norm_num⟩

/-- C4: a `new-entity` message whose entity's mapped category is not locally shared
leaves the node completely unchanged — `processSharedEntity` is not reached, no
effect is produced and the state (knowledge store included) is returned as-is. -/
theorem handleNewEntity_disallowed_is_noop (st : NodeState) (data : Msg) (e : Entity)
    (he : data.entity = some e)
    (hcat : p2pTypeToCategory e.type ∉ st.shareCategories) :
    handleNewEntity st data = (st, []) := by
  unfold handleNewEntity
  rw [he]
  by_cases hv : e.type = "" ∨ e.value = ""
  · simp [hv]
  · have hallowed : isEntityTypeAllowed st.shareCategories e.type = false := by
      simp [isEntityTypeAllowed, hcat]
    simp [hv, hallowed]

theorem handleNewEntity_disallowed_witness :
    p2pTypeToCategory "wallet" ∉ exampleState.shareCategories ∧
    handleNewEntity exampleState walletEntityMsg = (exampleState, []) :=
  ⟨by decide,
   handleNewEntity_disallowed_is_noop exampleState walletEntityMsg
     ⟨"wallet", "W1", [("a", "1")]⟩ rfl (by decide)⟩

/-- C10: a peer message whose tag is none of the seven handled types produces no
reply, no effect of any kind, and leaves the entire node state unchanged. -/
theorem handleMessage_unknown_type_is_noop (pq : String → List String → Option String)
    (st : NodeState) (data : Msg) (ws : Nat)
    (h : data.type ∉ ["handshake", "handshake-ack", "knowledge-request",
      "knowledge-response", "query", "query-response", "new-entity"]) :
    handleMessage pq st data ws = (st, []) := by
  simp only [List.mem_cons, List.not_mem_nil, or_false, not_or] at h
  obtain ⟨h1, h2, h3, h4, h5, h6, h7⟩ := h
  simp [handleMessage, h1, h2, h3, h4, h5, h6, h7]

theorem handleMessage_unknown_type_witness :
    unknownMsg.type ∉ ["handshake", "handshake-ack", "knowledge-request",
      "knowledge-response", "query", "query-response", "new-entity"] ∧
    handleMessage nullQueryProcessor exampleState unknownMsg 5 = (exampleState, []) :=
  ⟨by decide,
   handleMessage_unknown_type_is_noop nullQueryProcessor exampleState unknownMsg 5 (by decide)⟩

theorem aset_map_fst {κ α : Type} [DecidableEq κ] (l : List (κ × α)) (k : κ) (v : α) :
    (aset l k v).map Prod.fst =
      if k ∈ l.map Prod.fst then l.map Prod.fst else l.map Prod.fst ++ [k] := by
  unfold aset
  split
  · rw [List.map_map]
    apply List.map_congr_left
    intro p _
    by_cases hp : p.1 = k
    · simp [hp]
    · simp [hp]
  · simp

theorem aset_keys_nodup {κ α : Type} [DecidableEq κ] (l : List (κ × α)) (k : κ) (v : α)
    (h : (l.map Prod.fst).Nodup) : ((aset l k v).map Prod.fst).Nodup := by
  rw [aset_map_fst]
  split
  · exact h
  · rename_i hk
    refine List.Nodup.append h (List.nodup_singleton k) ?_
    intro a ha hb
    rw [List.mem_singleton] at hb
    exact hk (hb ▸ ha)

theorem handleKnowledgeRequest_peers (st : NodeState) (data : Msg) (ws : Nat) :
    (handleKnowledgeRequest st data ws).1.peers = st.peers := by
  unfold handleKnowledgeRequest
  cases data.categories with
  | none => rfl
  | some c =>
      dsimp only
      split <;> rfl

theorem handleKnowledgeResponse_peers (st : NodeState) (data : Msg) :
    (handleKnowledgeResponse st data).1.peers = st.peers := by
  unfold handleKnowledgeResponse
  cases h : alookup data.requestId st.pendingQueries <;> simp

theorem handleQuery_peers (pq : String → List String → Option String) (st : NodeState)
    (data : Msg) (ws : Nat) : (handleQuery pq st data ws).1.peers = st.peers := by
  unfold handleQuery
  cases data.categories with
  | none => rfl
  | some c =>
      dsimp only
      split <;> rfl

theorem handleQueryResponse_peers (st : NodeState) (data : Msg) :
    (handleQueryResponse st data).1.peers = st.peers := by
  unfold handleQueryResponse
  cases h : alookup data.queryId st.pendingQueries <;> simp

theorem handleNewEntity_peers (st : NodeState) (data : Msg) :
    (handleNewEntity st data).1.peers = st.peers := by
  unfold handleNewEntity
  cases data.entity with
  | none => rfl
  | some e =>
      dsimp only
      split
      · rfl
      · split <;> rfl

theorem handleMessage_peers (pq : String → List String → Option String) (st : NodeState)
    (data : Msg) (ws : Nat) :
    (handleMessage pq st data ws).1.peers = st.peers ∨
    (handleMessage pq st data ws).1.peers = aset st.peers data.clientId ws := by
  unfold handleMessage
  by_cases h1 : data.type = "handshake"
  · right; simp [h1]
  · left
    rw [if_neg h1]
    by_cases h2 : data.type = "handshake-ack"
    · simp [h2]
    rw [if_neg h2]
    by_cases h3 : data.type = "knowledge-request"
    · simp [h3, handleKnowledgeRequest_peers]
    rw [if_neg h3]
    by_cases h4 : data.type = "knowledge-response"
    · simp [h4, handleKnowledgeResponse_peers]
    rw [if_neg h4]
    by_cases h5 : data.type = "query"
    · simp [h5, handleQuery_peers]
    rw [if_neg h5]
    by_cases h6 : data.type = "query-response"
    · simp [h6, handleQueryResponse_peers]
    rw [if_neg h6]
    by_cases h7 : data.type = "new-entity"
    · simp [h7, handleNewEntity_peers]
    rw [if_neg h7]

theorem handleMessage_peers_nodup (pq : String → List String → Option String)
    (st : NodeState) (data : Msg) (ws : Nat) (h : (st.peers.map Prod.fst).Nodup) :
    ((handleMessage pq st data ws).1.peers.map Prod.fst).Nodup := by
  rcases handleMessage_peers pq st data ws with heq | heq
  · rw [heq]; exact h
  · rw [heq]; exact aset_keys_nodup st.peers data.clientId ws h

/-- C8: receiving handshakes is idempotent on the connection registry — starting from
a registry without duplicate peerIds, any sequence of incoming messages (repeated
identical handshakes included) leaves the peers map with at most one entry per
peerId, and every handshake is answered with a `handshake-ack` carrying the local
expertise profile. -/
theorem handshake_idempotent_registry (pq : String → List String → Option String)
    (st : NodeState) (msgs : List (Msg × Nat))
    (h : (st.peers.map Prod.fst).Nodup) :
    ((applyMessages pq st msgs).peers.map Prod.fst).Nodup ∧
    (∀ data ws, data.type = "handshake" →
      (handleMessage pq st data ws).2 =
        [.send ws (.handshakeAck st.clientId st.expertiseProfile)]) := by
  constructor
  · induction msgs generalizing st with
    | nil => exact h
    | cons m ms ih =>
        exact ih _ (handleMessage_peers_nodup pq st m.1 m.2 h)
  · intro data ws hty
    simp [handleMessage, hty]

theorem handshake_idempotent_witness :
    ((applyMessages nullQueryProcessor exampleState
        [(handshakeMsg, 1), (handshakeMsg, 1)]).peers.map Prod.fst).Nodup ∧
    (handleMessage nullQueryProcessor exampleState handshakeMsg 1).2 =
      [.send 1 (.handshakeAck exampleState.clientId exampleState.expertiseProfile)] := by
  have h := handshake_idempotent_registry nullQueryProcessor exampleState
    [(handshakeMsg, 1), (handshakeMsg, 1)] (by decide)
  exact ⟨h.1, h.2 handshakeMsg 1 rfl⟩

theorem trackPeerEntity_store (km : KMState) (i : Nat) (p : String) :
    (trackPeerEntity km i p).store = km.store := by
  unfold trackPeerEntity
  cases h : getEntityById km i <;> simp

/-- C5: the merge policy of `processSharedEntity`. For an unseen `(type, value)` key
the entity is inserted as-is (fresh id, its own metadata, current timestamps); for an
existing record the incoming metadata replaces the stored one exactly when it has
strictly more fields, and on ties or fewer fields the whole knowledge state is left
unchanged. -/
theorem processSharedEntity_merge (km : KMState) (e : Entity) (src : String) (now : Nat) :
    (getEntityByTypeAndValue km e.type e.value = none →
      getEntityByTypeAndValue (processSharedEntity km e src now).1 e.type e.value =
        some ⟨km.nextId, e.type, e.value, e.metadata, now, now⟩) ∧
    (∀ ex, getEntityByTypeAndValue km e.type e.value = some ex →
      (objSize e.metadata > objSize ex.metadata →
        (getEntityByTypeAndValue (processSharedEntity km e src now).1 e.type e.value).map
          StoredEntity.metadata = some e.metadata) ∧
      (¬objSize e.metadata > objSize ex.metadata →
        (processSharedEntity km e src now).1 = km)) := by
  constructor
  · intro h
    simp only [processSharedEntity, h, storeEntity]
    unfold getEntityByTypeAndValue at h ⊢
    rw [trackPeerEntity_store]
    dsimp only
    rw [List.find?_append, h]
    simp
  · intro ex h
    constructor
    · intro hsz
      simp only [processSharedEntity, h, if_pos hsz]
      unfold getEntityByTypeAndValue at h ⊢
      rw [trackPeerEntity_store]
      dsimp only [updateEntityMetadata]
      rw [List.find?_map]
      have hpf : (fun x : StoredEntity => decide (x.entity_type = e.type ∧ x.entity_value = e.value)) ∘
          (fun x : StoredEntity =>
            if x.id = ex.id then { x with metadata := e.metadata, updated_at := now } else x) =
          fun x : StoredEntity => decide (x.entity_type = e.type ∧ x.entity_value = e.value) := by
        funext x
        by_cases hx : x.id = ex.id <;> simp [hx]
      rw [hpf, h]
      simp
    · intro hsz
      simp only [processSharedEntity, h, if_neg hsz]

theorem processSharedEntity_merge_witness :
    (getEntityByTypeAndValue
        (processSharedEntity ⟨[⟨1, "token", "X", [("a", "1")], 0, 0⟩], 2, [("tokens", 1)], []⟩
          ⟨"token", "X", [("a", "1"), ("b", "2")]⟩ "peer1" 5).1 "token" "X").map
      StoredEntity.metadata = some [("a", "1"), ("b", "2")] ∧
    getEntityByTypeAndValue
        (processSharedEntity exampleKM ⟨"token", "Y", []⟩ "peer1" 3).1 "token" "Y" =
      some ⟨1, "token", "Y", [], 3, 3⟩ := by
  constructor
  · exact (processSharedEntity_merge
        ⟨[⟨1, "token", "X", [("a", "1")], 0, 0⟩], 2, [("tokens", 1)], []⟩
        ⟨"token", "X", [("a", "1"), ("b", "2")]⟩ "peer1" 5).2
      ⟨1, "token", "X", [("a", "1")], 0, 0⟩ (by decide) |>.1 (by decide)
  · exact (processSharedEntity_merge exampleKM ⟨"token", "Y", []⟩ "peer1" 3).1 (by decide)

/-- C6: categories are always intersected with the local share list. A
`requestKnowledge` call whose categories all fall outside `shareCategories` returns
`[]` without dispatching any `knowledge-request`; an incoming `knowledge-request`
whose categories all fall outside the responder's `shareCategories` is answered with
an explicit empty-entities `knowledge-response`; and whenever a request is actually
dispatched, the categories it carries are exactly the filtered intersection. -/
theorem knowledge_categories_intersection :
    (∀ (st : NodeState) (rid : String) (cats : List String) (q : String) (ri : Nat),
      (∀ c ∈ cats, c ∉ st.shareCategories) →
      requestKnowledgeSetup st rid cats q ri = .earlyReturn []) ∧
    (∀ (st : NodeState) (data : Msg) (ws : Nat) (cats : List String),
      data.categories = some cats →
      (∀ c ∈ cats, c ∉ st.shareCategories) →
      handleKnowledgeRequest st data ws =
        (st, [.send ws (.knowledgeResponse data.requestId [] none)])) ∧
    (∀ (st : NodeState) (rid : String) (cats : List String) (q : String) (ri : Nat)
      (rid2 : String) (cs : List String) (q2 : String) (ts : List (String × Nat)),
      requestKnowledgeSetup st rid cats q ri = .sendRequests rid2 cs q2 ts →
      cs = cats.filter (fun c => decide (c ∈ st.shareCategories))) := by
  refine ⟨?_, ?_, ?_⟩
  · intro st rid cats q ri hall
    unfold requestKnowledgeSetup
    by_cases hp : st.peers.isEmpty
    · simp [hp, strictEqBoolString]
    · have hfil : cats.filter (fun c => decide (c ∈ st.shareCategories)) = [] :=
        List.filter_eq_nil_iff.mpr (fun c hc => by simp [hall c hc])
      simp [hp, hfil]
  · intro st data ws cats hcats hall
    unfold handleKnowledgeRequest
    rw [hcats]
    have hfil : cats.filter (fun c => decide (c ∈ st.shareCategories)) = [] :=
      List.filter_eq_nil_iff.mpr (fun c hc => by simp [hall c hc])
    simp [hfil]
  · intro st rid cats q ri rid2 cs q2 ts h
    unfold requestKnowledgeSetup at h
    by_cases hp : st.peers.isEmpty
    · simp [hp, strictEqBoolString] at h
    · by_cases hfil : (cats.filter (fun c => decide (c ∈ st.shareCategories))).isEmpty
      · simp [hp, hfil] at h
      · rw [if_neg hp] at h
        dsimp only at h
        rw [if_neg hfil] at h
        injection h with h1 h2 h3 h4
        exact h2.symm

theorem knowledge_categories_intersection_witness :
    requestKnowledgeSetup exampleState "r1" ["wallets"] "" 0 = .earlyReturn [] ∧
    handleKnowledgeRequest exampleState walletRequestMsg 1 =
      (exampleState, [.send 1 (.knowledgeResponse "req9" [] none)]) ∧
    ["tokens"] = (["tokens", "wallets"].filter
      (fun c => decide (c ∈ exampleState.shareCategories))) :=
  ⟨knowledge_categories_intersection.1 exampleState "r1" ["wallets"] "" 0 (by decide),
   knowledge_categories_intersection.2.1 exampleState walletRequestMsg 1 ["wallets"]
     rfl (by decide),
   knowledge_categories_intersection.2.2 exampleState "r1" ["tokens", "wallets"] "" 0
     "r1" ["tokens"] "" [("peer2", 2)] (by decide)⟩

theorem bestStep_snd_le (st : NodeState) (c : String) (acc : Option String × Int)
    (p : String × Nat) : acc.2 ≤ (bestStep st c acc p).2 := by
  unfold bestStep
  dsimp only
  split
  · next h => exact le_of_lt h
  · exact le_refl _

theorem bestStep_self_le (st : NodeState) (c : String) (acc : Option String × Int)
    (p : String × Nat) : (peerCategoryCount st p.1 c : Int) ≤ (bestStep st c acc p).2 := by
  unfold bestStep
  dsimp only
  split
  · exact le_refl _
  · next h => exact le_of_not_lt h

theorem foldl_bestStep_le (st : NodeState) (c : String) (l : List (String × Nat))
    (acc : Option String × Int) : acc.2 ≤ (l.foldl (bestStep st c) acc).2 := by
  induction l generalizing acc with
  | nil => exact le_refl _
  | cons p l ih =>
      rw [List.foldl_cons]
      exact le_trans (bestStep_snd_le st c acc p) (ih _)

theorem foldl_bestStep_bound (st : NodeState) (c : String) (l : List (String × Nat))
    (acc : Option String × Int) :
    ∀ q ∈ l, (peerCategoryCount st q.1 c : Int) ≤ (l.foldl (bestStep st c) acc).2 := by
  induction l generalizing acc with
  | nil => intro q hq; cases hq
  | cons p l ih =>
      intro q hq
      rw [List.foldl_cons]
      rcases List.mem_cons.mp hq with rfl | hq
      · exact le_trans (bestStep_self_le st c acc q) (foldl_bestStep_le st c l _)
      · exact ih _ q hq

theorem foldl_bestStep_cases (st : NodeState) (c : String) (l : List (String × Nat))
    (acc : Option String × Int) :
    l.foldl (bestStep st c) acc = acc ∨
    ∃ p ∈ l, l.foldl (bestStep st c) acc = (some p.1, (peerCategoryCount st p.1 c : Int)) := by
  induction l generalizing acc with
  | nil => left; rfl
  | cons p l ih =>
      rw [List.foldl_cons]
      rcases ih (bestStep st c acc p) with h | ⟨q, hq, h⟩
      · rw [h]
        unfold bestStep
        dsimp only
        split
        · right; exact ⟨p, List.mem_cons_self p l, rfl⟩
        · left; rfl
      · right; exact ⟨q, List.mem_cons_of_mem p hq, h⟩

/-- Helper: the argmax property of the source's best-peer scan. -/
theorem findBest_spec (st : NodeState) (c : String) (p : String)
    (h : findBestPeerForCategory st c = some p) :
    p ∈ st.peers.map Prod.fst ∧
    ∀ q ∈ st.peers.map Prod.fst, peerCategoryCount st q c ≤ peerCategoryCount st p c := by
  unfold findBestPeerForCategory at h
  by_cases hp : st.peers.isEmpty
  · simp [hp] at h
  · rw [if_neg hp] at h
    rcases foldl_bestStep_cases st c st.peers (none, -1) with hc | ⟨r, hr, hc⟩
    · rw [hc] at h; cases h
    · rw [hc] at h
      obtain rfl : r.1 = p := by simpa using h
      refine ⟨List.mem_map_of_mem Prod.fst hr, ?_⟩
      intro q hq
      obtain ⟨qp, hqp, rfl⟩ := List.mem_map.mp hq
      have hb := foldl_bestStep_bound st c st.peers (none, -1) qp hqp
      rw [hc] at hb
      have hb2 : (peerCategoryCount st qp.1 c : Int) ≤ (peerCategoryCount st r.1 c : Int) := hb
      exact_mod_cast hb2

/-- Helper: the best-peer scan returns `none` exactly when no peer is connected (any
connected peer scores at least 0, beating the initial best score of −1). -/
theorem findBest_none_iff (st : NodeState) (c : String) :
    findBestPeerForCategory st c = none ↔ st.peers = [] := by
  constructor
  · intro h
    by_contra hne
    have hp : ¬st.peers.isEmpty = true := by
      simpa [List.isEmpty_iff] using hne
    unfold findBestPeerForCategory at h
    rw [if_neg hp] at h
    rcases foldl_bestStep_cases st c st.peers (none, -1) with hc | ⟨r, hr, hc⟩
    · obtain ⟨q, hq⟩ := List.exists_mem_of_ne_nil st.peers hne
      have hb := foldl_bestStep_bound st c st.peers (none, -1) q hq
      rw [hc] at hb
      have hnn : (0 : Int) ≤ (peerCategoryCount st q.1 c : Int) := Int.ofNat_nonneg _
      omega
    · rw [hc] at h; cases h
  · intro h
    unfold findBestPeerForCategory
    simp [h]

theorem aset_ne_nil {κ α : Type} [DecidableEq κ] (l : List (κ × α)) (k : κ) (v : α) :
    aset l k v ≠ [] := by
  unfold aset
  split
  · next hk =>
      intro hmap
      rw [List.map_eq_nil_iff] at hmap
      subst hmap
      simp at hk
  · simp

theorem targetStep_ne_nil (st : NodeState) (tp : List (String × Nat)) (c : String)
    (h : tp ≠ []) : targetStep st tp c ≠ [] := by
  unfold targetStep
  split
  · split
    · split
      · exact aset_ne_nil _ _ _
      · exact h
    · exact h
  · exact h

theorem foldl_targetStep_ne_nil (st : NodeState) (l : List String)
    (tp : List (String × Nat)) (h : tp ≠ []) : l.foldl (targetStep st) tp ≠ [] := by
  induction l generalizing tp with
  | nil => exact h
  | cons c cs ih => exact ih _ (targetStep_ne_nil st tp c h)

theorem alookup_of_mem_keys {κ α : Type} [DecidableEq κ] (l : List (κ × α)) (k : κ)
    (h : k ∈ l.map Prod.fst) : ∃ v, alookup k l = some v := by
  induction l with
  | nil => cases h
  | cons p l ih =>
      by_cases hp : p.1 = k
      · exact ⟨p.2, by simp [alookup, hp]⟩
      · rw [List.map_cons] at h
        have hmem : k ∈ l.map Prod.fst := by
          rcases List.mem_cons.mp h with h1 | h1
          · exact absurd h1.symm hp
          · exact h1
        obtain ⟨v, hv⟩ := ih hmem
        exact ⟨v, by simp [alookup, hp, hv]⟩

theorem foldl_targetStep_eq_nil (st : NodeState) (l : List String)
    (tp : List (String × Nat)) (h : l.foldl (targetStep st) tp = []) :
    ∀ c ∈ l, findBestPeerForCategory st c = none ∨
      findBestPeerForCategory st c = some "" := by
  induction l generalizing tp with
  | nil => intro c hc; cases hc
  | cons c cs ih =>
      rw [List.foldl_cons] at h
      have hstep : targetStep st tp c = [] := by
        by_contra hne
        exact foldl_targetStep_ne_nil st cs _ hne h
      have hbest : findBestPeerForCategory st c = none ∨
          findBestPeerForCategory st c = some "" := by
        cases hb : findBestPeerForCategory st c with
        | none => exact Or.inl rfl
        | some p =>
            by_cases hpe : p = ""
            · subst hpe
              exact Or.inr rfl
            · exfalso
              obtain ⟨v, hv⟩ := alookup_of_mem_keys st.peers p (findBest_spec st c p hb).1
              have hstep2 : targetStep st tp c = aset tp p v := by
                simp only [targetStep, hb, hv, ne_eq, hpe, not_false_eq_true, if_true]
              rw [hstep2] at hstep
              exact aset_ne_nil tp p v hstep
      intro c2 hc2
      rcases List.mem_cons.mp hc2 with rfl | hc2
      · exact hbest
      · exact ih _ h c2 hc2

/-- C7: counterexample to the claim as stated. In a state whose highest-scoring
connected peer for `tokens` is registered under the falsy peerId `""` (a handshake
with a missing or empty clientId), `findBestPeerForCategory` does return that peer —
connected, with the maximal observed count — yet the `bestPeerId &&` truthiness guard
skips it, no category contributes a target, and the dispatched request falls back to
broadcasting to all connected peers: the best peer is not selected as the per-category
target and the fallback is taken although a peer qualifies for the category. -/
theorem requestKnowledge_target_selection_counterexample :
    findBestPeerForCategory falsyPeerState "tokens" = some "" ∧
    "" ∈ falsyPeerState.peers.map Prod.fst ∧
    (∀ q ∈ falsyPeerState.peers.map Prod.fst,
      peerCategoryCount falsyPeerState q "tokens" ≤
        peerCategoryCount falsyPeerState "" "tokens") ∧
    bestTargets falsyPeerState ["tokens"] = [] ∧
    requestKnowledgeSetup falsyPeerState "r1" ["tokens"] "" 0 =
      .sendRequests "r1" ["tokens"] "" falsyPeerState.peers := by decide

/-- C7 (amended): target-peer selection of `requestKnowledge`. The best-peer scan
returns a connected peer with the maximal observed count in the category, and fails
only when no peer is connected; a best peer is added as a target only when its peerId
is truthy (non-empty), so the target map stays empty exactly when every requested
category yielded no best peer or a falsy-id one; and every dispatched request targets
the per-category (truthy) best peers when there are any, falling back to broadcasting
to all connected peers otherwise (the preferRandom branch being constantly false). -/
theorem requestKnowledge_target_selection :
    (∀ (st : NodeState) (c p : String), findBestPeerForCategory st c = some p →
      p ∈ st.peers.map Prod.fst ∧
      ∀ q ∈ st.peers.map Prod.fst, peerCategoryCount st q c ≤ peerCategoryCount st p c) ∧
    (∀ (st : NodeState) (c : String),
      findBestPeerForCategory st c = none ↔ st.peers = []) ∧
    (∀ (st : NodeState) (allowed : List String), bestTargets st allowed = [] →
      ∀ c ∈ allowed, findBestPeerForCategory st c = none ∨
        findBestPeerForCategory st c = some "") ∧
    (∀ (st : NodeState) (rid : String) (cats : List String) (q : String) (ri : Nat)
      (rid2 : String) (cs : List String) (q2 : String) (ts : List (String × Nat)),
      requestKnowledgeSetup st rid cats q ri = .sendRequests rid2 cs q2 ts →
      (bestTargets st cs ≠ [] → ts = bestTargets st cs) ∧
      (bestTargets st cs = [] → ts = st.peers)) := by
  refine ⟨findBest_spec, findBest_none_iff, ?_, ?_⟩
  · intro st allowed h
    exact foldl_targetStep_eq_nil st allowed [] h
  · intro st rid cats q ri rid2 cs q2 ts h
    unfold requestKnowledgeSetup at h
    by_cases hp : st.peers.isEmpty
    · simp [hp, strictEqBoolString] at h
    · by_cases hfil : (cats.filter (fun c => decide (c ∈ st.shareCategories))).isEmpty
      · simp [hp, hfil] at h
      · rw [if_neg hp] at h
        dsimp only at h
        rw [if_neg hfil] at h
        injection h with h1 h2 h3 h4
        rw [h2] at h4
        constructor
        · intro hbne
          rw [← h4]
          unfold selectTargetPeers
          dsimp only
          rw [if_neg (fun hh => hbne (List.isEmpty_iff.mp hh))]
        · intro hbe
          rw [← h4]
          unfold selectTargetPeers
          dsimp only
          rw [if_pos (List.isEmpty_iff.mpr hbe)]
          simp [strictEqBoolString]

theorem requestKnowledge_target_selection_witness :
    ("peer2" ∈ exampleState.peers.map Prod.fst ∧
      ∀ q ∈ exampleState.peers.map Prod.fst,
        peerCategoryCount exampleState q "tokens" ≤
          peerCategoryCount exampleState "peer2" "tokens") ∧
    [("peer2", 2)] = bestTargets exampleState ["tokens"] :=
  ⟨requestKnowledge_target_selection.1 exampleState "tokens" "peer2" (by decide),
   (requestKnowledge_target_selection.2.2.2 exampleState "r1" ["tokens"] "" 0
     "r1" ["tokens"] "" [("peer2", 2)] (by decide)).1 (by decide)⟩

/-- C9: on a `peer-suggestion` from the discovery server with valid connect info and
a present compatibility score, the node dials the suggested peer exactly when the
score is at least 0.7; below the threshold the suggestion is only logged, no
connection attempt is made and the node state is unchanged. -/
theorem peer_suggestion_dial_threshold (st : NodeState) (data : DMsg) (ci : ConnectInfo)
    (s : ℚ) (hty : data.type = "peer-suggestion") (hci : data.connectInfo = some ci)
    (hhost : ci.host ≠ "") (hport : ci.port ≠ 0)
    (hscore : data.compatibilityScore = some s) :
    handleDiscoveryMessage st data =
      (st, if (0.7 : ℚ) ≤ s then [.dial (peerUrl ci)] else []) := by
  unfold handleDiscoveryMessage
  rw [if_neg (by rw [hty]; decide), if_neg (by rw [hty]; decide),
    if_neg (by rw [hty]; decide), if_neg (by rw [hty]; decide), if_pos hty, hci]
  dsimp only
  rw [if_pos ⟨hhost, hport⟩, hscore]
  by_cases hge : (0.7 : ℚ) ≤ s
  · rw [if_pos hge, if_pos]
    simp [jsGE, ge_iff_le, hge]
  · rw [if_neg hge, if_neg]
    simp [jsGE, ge_iff_le, hge]

theorem peer_suggestion_dial_witness :
    handleDiscoveryMessage exampleState suggestionHigh =
      (exampleState, [DAction.dial (peerUrl ⟨"h", 81⟩)]) := by
  have h := peer_suggestion_dial_threshold exampleState suggestionHigh ⟨"h", 81⟩
    ((4 : ℚ)/5) rfl rfl (by decide) (by decide) rfl
  rw [h]
  norm_num

end Voyager
